import Mathlib

/-!
Verification of the inspect4py `code_inspector` sources (`code_inspector.py` and
`code_inspector/utils.py`) against its natural-language specification.

Strings are embedded as `List Char` (`Str`); Python string primitives used by
the source (`split`, `join`, the `in` substring test, truthiness) are modelled
character-by-character below.  Python `dict`s appearing in the source are
embedded as insertion-ordered association lists, matching the dictionaries the
source builds (whose keys are unique).  Operations of the source that can raise
a Python exception are embedded in `Option`/`Except`.
-/

/-- Python strings, embedded as lists of characters. -/
abbrev Str := List Char

/-- Python `needle in hay` for strings: substring containment. -/
def pyIn : Str → Str → Bool
  | needle, [] => needle.isEmpty
  | needle, x :: xs => needle.isPrefixOf (x :: xs) || pyIn needle xs

/-- Python `s.split(c)` for a one-character separator: splits at every
occurrence, keeping empty pieces; the result is always non-empty. -/
def pySplit (c : Char) : Str → List Str
  | [] => [[]]
  | x :: xs =>
    let r := pySplit c xs
    if x = c then [] :: r
    else (x :: r.headD []) :: r.tail

/-- Python `".".join(parts)`. -/
def joinDot (parts : List Str) : Str := List.intercalate ['.'] parts

theorem pySplit_ne_nil (c : Char) (s : Str) : pySplit c s ≠ [] := by
  cases s with
  | nil => simp [pySplit]
  | cons x xs =>
    simp only [pySplit]
    by_cases h : x = c <;> simp [h]

theorem pySplit_headD (c : Char) (s : Str) :
    (pySplit c s).headD [] = s.takeWhile (· ≠ c) := by
  induction s with
  | nil => simp [pySplit]
  | cons x xs ih =>
    by_cases h : x = c
    · simp [pySplit, h, List.takeWhile]
    · simp only [pySplit, if_neg h, List.headD_cons]
      rw [List.takeWhile_cons_of_pos (by simp [h]), ih]

theorem pySplit_length_cons (c : Char) (x : Char) (xs : Str) (h : ¬ x = c) :
    (pySplit c (x :: xs)).length = (pySplit c xs).length := by
  have hne := pySplit_ne_nil c xs
  simp only [pySplit, if_neg h]
  cases hr : pySplit c xs with
  | nil => exact absurd hr hne
  | cons y ys => simp

/-- The second piece of a Python one-character split is the run of characters
after the first separator and before the next one. -/
theorem pySplit_get?_one (c : Char) (s : Str)
    (h : 2 ≤ (pySplit c s).length) :
    (pySplit c s).get? 1 =
      some (((s.dropWhile (· ≠ c)).drop 1).takeWhile (· ≠ c)) := by
  induction s with
  | nil => simp [pySplit] at h
  | cons x xs ih =>
    by_cases hx : x = c
    · subst hx
      have hne := pySplit_ne_nil x xs
      have hhd := pySplit_headD x xs
      simp only [pySplit, if_pos rfl]
      cases hr : pySplit x xs with
      | nil => exact absurd hr hne
      | cons y ys =>
        rw [hr] at hhd
        simp only [List.headD_cons] at hhd
        simp [List.dropWhile, hhd]
    · have hlen : 2 ≤ (pySplit c xs).length := by
        have := pySplit_length_cons c x xs hx
        omega
      have hne := pySplit_ne_nil c xs
      have ihh := ih hlen
      simp only [pySplit, if_neg hx]
      cases hr : pySplit c xs with
      | nil => exact absurd hr hne
      | cons y ys =>
        rw [hr] at ihh
        simp only [List.get?] at ihh ⊢
        rw [List.dropWhile_cons_of_pos (by simp [hx])]
        simpa using ihh

/-! ## `utils.extract_software_type` (utils.py lines 486-508) -/

/-- The source's test `"library" in entry["type"] or "package" in entry["type"]`. -/
def isLibraryOrPackageType (t : Str) : Bool :=
  pyIn ("library".data) t || pyIn ("package".data) t

/-- The source's test `"service" in entry["type"]`. -/
def isServiceType (t : Str) : Bool := pyIn ("service".data) t

/-- The source's test `"script" in entry["type"]`. -/
def isScriptType (t : Str) : Bool := pyIn ("script".data) t

/-- The loop of `extract_software_type`: a library/package entry returns its
own type immediately; otherwise the loop remembers whether any service or
script entry was seen, and the tail of the function turns that into
"service" / "script" / "not found". -/
def extractSoftwareTypeGo : List Str → Bool → Bool → Str
  | [], hasService, hasScript =>
    if hasService then "service".data
    else if hasScript then "script".data
    else "not found".data
  | t :: rest, hasService, hasScript =>
    if isLibraryOrPackageType t then t
    else extractSoftwareTypeGo rest (hasService || isServiceType t)
           (hasScript || isScriptType t)

/-- `utils.extract_software_type`, embedded on the list of the records'
`"type"` strings (the only field the source reads). -/
def extract_software_type (l : List Str) : Str :=
  extractSoftwareTypeGo l false false

theorem extractSoftwareTypeGo_no_libpack (l : List Str) (hs hc : Bool)
    (h : l.any isLibraryOrPackageType = false) :
    extractSoftwareTypeGo l hs hc =
      if hs || l.any isServiceType then "service".data
      else if hc || l.any isScriptType then "script".data
      else "not found".data := by
  induction l generalizing hs hc with
  | nil => simp [extractSoftwareTypeGo]
  | cons t rest ih =>
    simp only [List.any_cons, Bool.or_eq_false_iff] at h
    simp only [extractSoftwareTypeGo, h.1, if_false, Bool.false_eq_true]
    rw [ih _ _ h.2]
    simp [Bool.or_assoc]

theorem extractSoftwareTypeGo_libpack (l : List Str) (hs hc : Bool)
    (h : l.any isLibraryOrPackageType = true) :
    ∃ t ∈ l, isLibraryOrPackageType t = true ∧ extractSoftwareTypeGo l hs hc = t := by
  induction l generalizing hs hc with
  | nil => simp at h
  | cons t rest ih =>
    by_cases ht : isLibraryOrPackageType t = true
    · exact ⟨t, List.mem_cons_self t rest, ht, by simp [extractSoftwareTypeGo, ht]⟩
    · simp only [List.any_cons, ht, Bool.false_or] at h
      obtain ⟨u, hu, hlib, heq⟩ := ih (hs || isServiceType t) (hc || isScriptType t) h
      exact ⟨u, List.mem_cons_of_mem _ hu, hlib,
        by simp only [extractSoftwareTypeGo, ht, if_false]; exact heq⟩

/-- C1: the dominant-type reduction returns the type of a library/package
record when one is present; otherwise "service" when a service record is
present; otherwise "script" when a script record is present; otherwise the
literal "not found". -/
theorem extract_software_type_dominance (l : List Str) :
    (l.any isLibraryOrPackageType = true →
      ∃ t ∈ l, isLibraryOrPackageType t = true ∧ extract_software_type l = t)
    ∧ (l.any isLibraryOrPackageType = false → l.any isServiceType = true →
      extract_software_type l = "service".data)
    ∧ (l.any isLibraryOrPackageType = false → l.any isServiceType = false →
      l.any isScriptType = true → extract_software_type l = "script".data)
    ∧ (l.any isLibraryOrPackageType = false → l.any isServiceType = false →
      l.any isScriptType = false → extract_software_type l = "not found".data) := by
  refine ⟨fun h => extractSoftwareTypeGo_libpack l false false h,
    fun h hserv => ?_, fun h hserv hscr => ?_, fun h hserv hscr => ?_⟩
  · rw [extract_software_type, extractSoftwareTypeGo_no_libpack l false false h]
    simp [hserv]
  · rw [extract_software_type, extractSoftwareTypeGo_no_libpack l false false h]
    simp [hserv, hscr]
  · rw [extract_software_type, extractSoftwareTypeGo_no_libpack l false false h]
    simp [hserv, hscr]

/-- Witness for C1 at concrete inputs: one list per branch of the reduction. -/
theorem extract_software_type_dominance_witness :
    extract_software_type [("package".data)] = "package".data
    ∧ extract_software_type [("test".data), ("service".data), ("script".data)] = "service".data
    ∧ extract_software_type [("test".data), ("script without main".data)] = "script".data
    ∧ extract_software_type [("test".data)] = "not found".data := by
  refine ⟨?_, ?_, ?_, ?_⟩
  · obtain ⟨t, ht, -, heq⟩ :=
      (extract_software_type_dominance [("package".data)]).1 (by decide)
    simp only [List.mem_singleton] at ht
    rw [heq, ht]
  · exact (extract_software_type_dominance _).2.1 (by decide) (by decide)
  · exact (extract_software_type_dominance _).2.2.1 (by decide) (by decide) (by decide)
  · exact (extract_software_type_dominance _).2.2.2 (by decide) (by decide) (by decide)

/-! ## JSON trees and `utils.prune_json` (utils.py lines 42-66) -/

/-- JSON values as the source manipulates them: Python dicts (insertion-ordered
association lists), lists, and the leaf values occurring in the reports. -/
inductive Json where
  | str (s : Str)
  | int (n : Int)
  | bool (b : Bool)
  | null
  | arr (elems : List Json)
  | obj (fields : List (Str × Json))

/-- Python truthiness (`if b:`) for the embedded JSON values. -/
def truthy : Json → Bool
  | .str s => !s.isEmpty
  | .int n => n != 0
  | .bool b => b
  | .null => false
  | .arr l => !l.isEmpty
  | .obj fs => !fs.isEmpty

mutual

/-- `utils.prune_json`: a non-dict argument is returned unchanged; a dict is
rebuilt keeping only entries whose value is truthy, recursively pruning dict
values (kept only if the pruned dict is truthy) and filtering list values
element-wise (kept only if non-empty). -/
def prune_json : Json → Json
  | .obj fields => .obj (pruneFields fields)
  | j => j

/-- The `for a, b in json_dict.items()` loop body of `prune_json`: falsy values
are dropped; a dict value is pruned recursively and kept only if the pruned
dict is truthy (`prune_json` on a dict is `pruneFields` on its items, inlined
here so the recursion is structural); a list value is filtered element-wise and
kept only if non-empty; any other truthy value is kept as is. -/
def pruneFields : List (Str × Json) → List (Str × Json)
  | [] => []
  | (a, Json.obj fb) :: rest =>
    (if truthy (Json.obj fb) then
      if truthy (Json.obj (pruneFields fb)) then [(a, Json.obj (pruneFields fb))] else []
     else []) ++ pruneFields rest
  | (a, Json.arr l) :: rest =>
    (if truthy (Json.arr l) then
      if 0 < (pruneList l).length then [(a, Json.arr (pruneList l))] else []
     else []) ++ pruneFields rest
  | (a, b) :: rest =>
    (if truthy b then [(a, b)] else []) ++ pruneFields rest

/-- `list(filter(None, [prune_json(i) for i in b]))`. -/
def pruneList : List Json → List Json
  | [] => []
  | i :: rest =>
    (if truthy (prune_json i) then [prune_json i] else []) ++ pruneList rest

end

mutual

/-- The guarantee pruning establishes: every mapping entry has a truthy value
satisfying the same guarantee; a sequence reached as a mapping value has all
elements truthy, with mapping elements again satisfying the guarantee.
Sequences nested directly inside sequences are not constrained (the source
leaves them verbatim). -/
def prunedInv : Json → Bool
  | .obj fs => prunedFieldsInv fs
  | .arr l => prunedElemsInv l
  | _ => true

def prunedFieldsInv : List (Str × Json) → Bool
  | [] => true
  | (_, v) :: rest => truthy v && prunedInv v && prunedFieldsInv rest

def prunedElemsInv : List Json → Bool
  | [] => true
  | e :: rest => truthy e && prunedElemInv e && prunedElemsInv rest

def prunedElemInv : Json → Bool
  | .obj fs => prunedFieldsInv fs
  | _ => true

end

mutual

/-- The claim's universal property: no falsy value (empty mapping, empty
sequence, falsy leaf) anywhere below the root, at any nesting depth. -/
def noFalsyAnywhere : Json → Bool
  | .obj fs => noFalsyFields fs
  | .arr l => noFalsyElems l
  | _ => true

def noFalsyFields : List (Str × Json) → Bool
  | [] => true
  | (_, v) :: rest => truthy v && noFalsyAnywhere v && noFalsyFields rest

def noFalsyElems : List Json → Bool
  | [] => true
  | e :: rest => truthy e && noFalsyAnywhere e && noFalsyElems rest

end

mutual

/-- The claim's "every key of every mapping maps to a truthy value", at every
nesting depth, including mappings inside nested sequences. -/
def allKeysTruthy : Json → Bool
  | .obj fs => allKeysFields fs
  | .arr l => allKeysElems l
  | _ => true

def allKeysFields : List (Str × Json) → Bool
  | [] => true
  | (_, v) :: rest => truthy v && allKeysTruthy v && allKeysFields rest

def allKeysElems : List Json → Bool
  | [] => true
  | e :: rest => allKeysTruthy e && allKeysElems rest

end

/-- The contribution of one dict entry to `pruneFields`. -/
def pruneField1 (a : Str) : Json → List (Str × Json)
  | Json.obj fb =>
    if truthy (Json.obj fb) then
      if truthy (Json.obj (pruneFields fb)) then [(a, Json.obj (pruneFields fb))] else []
    else []
  | Json.arr l =>
    if truthy (Json.arr l) then
      if 0 < (pruneList l).length then [(a, Json.arr (pruneList l))] else []
    else []
  | b => if truthy b then [(a, b)] else []

theorem pruneFields_nil : pruneFields [] = [] := rfl

theorem pruneList_nil : pruneList [] = [] := rfl

theorem pruneFields_cons (a : Str) (b : Json) (rest : List (Str × Json)) :
    pruneFields ((a, b) :: rest) = pruneField1 a b ++ pruneFields rest := by
  cases b <;> rfl

theorem pruneFields_append (xs ys : List (Str × Json)) :
    pruneFields (xs ++ ys) = pruneFields xs ++ pruneFields ys := by
  induction xs with
  | nil => rfl
  | cons p rest ih =>
    obtain ⟨a, b⟩ := p
    rw [List.cons_append, pruneFields_cons, pruneFields_cons, ih, List.append_assoc]

theorem pruneList_cons (i : Json) (rest : List Json) :
    pruneList (i :: rest) =
      (if truthy (prune_json i) then [prune_json i] else []) ++ pruneList rest := rfl

theorem pruneList_append (xs ys : List Json) :
    pruneList (xs ++ ys) = pruneList xs ++ pruneList ys := by
  induction xs with
  | nil => rfl
  | cons i rest ih =>
    rw [List.cons_append, pruneList_cons, pruneList_cons, ih, List.append_assoc]

theorem prunedFieldsInv_append (xs ys : List (Str × Json)) :
    prunedFieldsInv (xs ++ ys) = (prunedFieldsInv xs && prunedFieldsInv ys) := by
  induction xs with
  | nil => simp [prunedFieldsInv]
  | cons p rest ih =>
    obtain ⟨a, v⟩ := p
    simp [prunedFieldsInv, ih, Bool.and_assoc]

theorem prunedElemsInv_append (xs ys : List Json) :
    prunedElemsInv (xs ++ ys) = (prunedElemsInv xs && prunedElemsInv ys) := by
  induction xs with
  | nil => simp [prunedElemsInv]
  | cons e rest ih => simp [prunedElemsInv, ih, Bool.and_assoc]

theorem truthy_arr_of_length (l : List Json) (h : 0 < l.length) :
    truthy (Json.arr l) = true := by
  cases l with
  | nil => simp at h
  | cons e rest => simp [truthy]

/-- Joint invariant/idempotency statement for pruning, by strong induction on
size: pruned dict items are truthy and satisfy the pruning guarantee, and
pruning dict items or list elements twice equals pruning once. -/
theorem prune_master : ∀ n : Nat,
    (∀ fs : List (Str × Json), sizeOf fs ≤ n →
      prunedFieldsInv (pruneFields fs) = true
      ∧ pruneFields (pruneFields fs) = pruneFields fs)
    ∧ (∀ l : List Json, sizeOf l ≤ n →
      prunedElemsInv (pruneList l) = true
      ∧ pruneList (pruneList l) = pruneList l) := by
  intro n
  induction n using Nat.strong_induction_on with
  | _ n ih =>
  constructor
  · intro fs hsz
    match fs with
    | [] => exact ⟨rfl, rfl⟩
    | (a, b) :: rest =>
      have hszc : sizeOf rest < n := by
        simp only [List.cons.sizeOf_spec, Prod.mk.sizeOf_spec] at hsz
        omega
      obtain ⟨hrinv, hridem⟩ := (ih (sizeOf rest) hszc).1 rest le_rfl
      rw [pruneFields_cons]
      rw [prunedFieldsInv_append, pruneFields_append, hrinv, hridem]
      cases b with
      | obj fb =>
        have hfb : sizeOf fb < n := by
          simp only [List.cons.sizeOf_spec, Prod.mk.sizeOf_spec,
            Json.obj.sizeOf_spec] at hsz
          omega
        obtain ⟨hinv, hidem⟩ := (ih (sizeOf fb) hfb).1 fb le_rfl
        constructor
        · simp only [pruneField1]
          by_cases h1 : truthy (Json.obj fb)
          · by_cases h2 : truthy (Json.obj (pruneFields fb))
            · simp [h1, h2, prunedFieldsInv, prunedInv, hinv]
            · simp [h1, h2, prunedFieldsInv]
          · simp [h1, prunedFieldsInv]
        · simp only [pruneField1]
          by_cases h1 : truthy (Json.obj fb)
          · by_cases h2 : truthy (Json.obj (pruneFields fb))
            · simp only [h1, h2, if_true]
              rw [pruneFields_cons]
              simp [pruneField1, hidem, h2, pruneFields_nil]
            · simp [h1, h2, pruneFields_nil, pruneList_nil]
          · simp [h1, pruneFields_nil, pruneList_nil]
      | arr l =>
        have hl : sizeOf l < n := by
          simp only [List.cons.sizeOf_spec, Prod.mk.sizeOf_spec,
            Json.arr.sizeOf_spec] at hsz
          omega
        obtain ⟨hinv, hidem⟩ := (ih (sizeOf l) hl).2 l le_rfl
        constructor
        · simp only [pruneField1]
          by_cases h1 : truthy (Json.arr l)
          · by_cases h2 : 0 < (pruneList l).length
            · simp [h1, h2, prunedFieldsInv, prunedInv, hinv,
                truthy_arr_of_length _ h2]
            · simp [h1, h2, prunedFieldsInv]
          · simp [h1, prunedFieldsInv]
        · simp only [pruneField1]
          by_cases h1 : truthy (Json.arr l)
          · by_cases h2 : 0 < (pruneList l).length
            · simp only [h1, h2, if_true]
              rw [pruneFields_cons]
              simp [pruneField1, hidem, h2, truthy_arr_of_length _ h2, pruneFields_nil]
            · simp [h1, h2, pruneFields_nil, pruneList_nil]
          · simp [h1, pruneFields_nil, pruneList_nil]
      | str s =>
        constructor
        · simp only [pruneField1]
          by_cases h1 : truthy (Json.str s) <;>
            simp [h1, prunedFieldsInv, prunedInv]
        · simp only [pruneField1]
          by_cases h1 : truthy (Json.str s)
          · simp only [h1, if_true]
            rw [pruneFields_cons]
            simp [pruneField1, h1, pruneFields_nil]
          · simp [h1, pruneFields_nil, pruneList_nil]
      | int m =>
        constructor
        · simp only [pruneField1]
          by_cases h1 : truthy (Json.int m) <;>
            simp [h1, prunedFieldsInv, prunedInv]
        · simp only [pruneField1]
          by_cases h1 : truthy (Json.int m)
          · simp only [h1, if_true]
            rw [pruneFields_cons]
            simp [pruneField1, h1, pruneFields_nil]
          · simp [h1, pruneFields_nil, pruneList_nil]
      | bool bv =>
        constructor
        · simp only [pruneField1]
          by_cases h1 : truthy (Json.bool bv) <;>
            simp [h1, prunedFieldsInv, prunedInv]
        · simp only [pruneField1]
          by_cases h1 : truthy (Json.bool bv)
          · simp only [h1, if_true]
            rw [pruneFields_cons]
            simp [pruneField1, h1, pruneFields_nil]
          · simp [h1, pruneFields_nil, pruneList_nil]
      | null =>
        constructor
        · simp [pruneField1, truthy, prunedFieldsInv]
        · simp [pruneField1, truthy, pruneFields_nil]
  · intro l hsz
    match l with
    | [] => exact ⟨rfl, rfl⟩
    | i :: rest =>
      have hszc : sizeOf rest < n := by
        simp only [List.cons.sizeOf_spec] at hsz
        omega
      obtain ⟨hrinv, hridem⟩ := (ih (sizeOf rest) hszc).2 rest le_rfl
      rw [pruneList_cons, prunedElemsInv_append, pruneList_append, hrinv, hridem]
      cases i with
      | obj fi =>
        have hfi : sizeOf fi < n := by
          simp only [List.cons.sizeOf_spec, Json.obj.sizeOf_spec] at hsz
          omega
        obtain ⟨hinv, hidem⟩ := (ih (sizeOf fi) hfi).1 fi le_rfl
        constructor
        · by_cases h1 : truthy (prune_json (Json.obj fi))
          · simp only [h1, if_true]
            simp only [prune_json] at h1 ⊢
            simp [prunedElemsInv, prunedElemInv, h1, hinv]
          · simp [h1, prunedElemsInv]
        · by_cases h1 : truthy (prune_json (Json.obj fi))
          · simp only [h1, if_true]
            rw [pruneList_cons]
            simp only [prune_json] at h1 ⊢
            simp [hidem, h1, pruneList_nil]
          · simp [h1, pruneFields_nil, pruneList_nil]
      | arr li =>
        constructor
        · by_cases h1 : truthy (prune_json (Json.arr li))
          · simp only [h1, if_true]
            simp only [prune_json] at h1 ⊢
            simp [prunedElemsInv, prunedElemInv, h1]
          · simp [h1, prunedElemsInv]
        · by_cases h1 : truthy (prune_json (Json.arr li))
          · simp only [h1, if_true]
            rw [pruneList_cons]
            simp only [prune_json] at h1 ⊢
            simp [h1, pruneList_nil]
          · simp [h1, pruneFields_nil, pruneList_nil]
      | str s =>
        constructor
        · by_cases h1 : truthy (prune_json (Json.str s))
          · simp only [h1, if_true]
            simp only [prune_json] at h1 ⊢
            simp [prunedElemsInv, prunedElemInv, h1]
          · simp [h1, prunedElemsInv]
        · by_cases h1 : truthy (prune_json (Json.str s))
          · simp only [h1, if_true]
            rw [pruneList_cons]
            simp only [prune_json] at h1 ⊢
            simp [h1, pruneList_nil]
          · simp [h1, pruneFields_nil, pruneList_nil]
      | int m =>
        constructor
        · by_cases h1 : truthy (prune_json (Json.int m))
          · simp only [h1, if_true]
            simp only [prune_json] at h1 ⊢
            simp [prunedElemsInv, prunedElemInv, h1]
          · simp [h1, prunedElemsInv]
        · by_cases h1 : truthy (prune_json (Json.int m))
          · simp only [h1, if_true]
            rw [pruneList_cons]
            simp only [prune_json] at h1 ⊢
            simp [h1, pruneList_nil]
          · simp [h1, pruneFields_nil, pruneList_nil]
      | bool bv =>
        constructor
        · by_cases h1 : truthy (prune_json (Json.bool bv))
          · simp only [h1, if_true]
            simp only [prune_json] at h1 ⊢
            simp [prunedElemsInv, prunedElemInv, h1]
          · simp [h1, prunedElemsInv]
        · by_cases h1 : truthy (prune_json (Json.bool bv))
          · simp only [h1, if_true]
            rw [pruneList_cons]
            simp only [prune_json] at h1 ⊢
            simp [h1, pruneList_nil]
          · simp [h1, pruneFields_nil, pruneList_nil]
      | null =>
        constructor
        · simp [prune_json, truthy, prunedElemsInv]
        · simp [prune_json, truthy, pruneList_nil]

/-- C5 counterexample: pruning does not recurse into a sequence nested inside
a sequence, so a falsy leaf (`0`) and an empty mapping survive pruning there,
refuting "no empty mapping, empty sequence, or falsy value remains anywhere". -/
theorem prune_json_nested_seq_counterexample :
    noFalsyAnywhere (prune_json (Json.obj [(("a".data),
        Json.arr [Json.arr [Json.int 0, Json.obj []], Json.int 1])])) = false
    ∧ prune_json (Json.obj [(("a".data),
        Json.arr [Json.arr [Json.int 0, Json.obj []], Json.int 1])])
      = Json.obj [(("a".data),
        Json.arr [Json.arr [Json.int 0, Json.obj []], Json.int 1])] :=
  ⟨by decide, rfl⟩

/-- C5 (amended): pruning a mapping removes every empty mapping, empty
sequence, and falsy leaf reachable through mapping entries — every remaining
entry is truthy, recursively pruned, and sequence values of mappings contain
only truthy elements with mapping elements pruned — but sequences nested
directly inside sequences are kept verbatim, their contents unpruned. -/
theorem prune_json_obj_invariant (fs : List (Str × Json)) :
    prunedInv (prune_json (Json.obj fs)) = true := by
  have h := ((prune_master (sizeOf fs)).1 fs le_rfl).1
  show prunedFieldsInv (pruneFields fs) = true
  exact h

/-- C6 counterexample: after pruning, a mapping shielded inside a
sequence-in-a-sequence still has a key mapping to a falsy value, refuting
"every key of every mapping maps to a non-empty value". -/
theorem prune_json_keys_counterexample :
    allKeysTruthy (prune_json (Json.obj [(("a".data),
        Json.arr [Json.arr [Json.obj [(("x".data), Json.int 0)]], Json.int 1])])) = false := by
  decide

/-- C6 (amended): pruning is idempotent on every JSON tree; and in the result
of pruning a mapping, every key of every mapping reachable through mapping
entries (not shielded inside a sequence nested in a sequence) maps to a truthy
value. -/
theorem prune_json_idempotent_and_keys (t : Json) (fs : List (Str × Json)) :
    prune_json (prune_json t) = prune_json t
    ∧ prunedInv (prune_json (Json.obj fs)) = true := by
  constructor
  · cases t with
    | obj g =>
      show prune_json (Json.obj (pruneFields g)) = Json.obj (pruneFields g)
      show Json.obj (pruneFields (pruneFields g)) = Json.obj (pruneFields g)
      rw [((prune_master (sizeOf g)).1 g le_rfl).2]
    | str s => rfl
    | int n => rfl
    | bool b => rfl
    | null => rfl
    | arr l => rfl
  · exact ((prune_master (sizeOf fs)).1 fs le_rfl).1

/-! ## `CodeInspection.file_json` (code_inspector.py lines 290-312) -/

/-- The two results of `file_json`: the JSON content written to the per-file
artifact (`json.dump(prune_json(file_dict), ...)`) and the dictionary returned
to the caller (`return [file_dict, json_file]`), which directory mode stores
in the aggregate report. -/
structure FileJsonResult where
  written : Json
  returned : Json

/-- `CodeInspection.file_json`, embedded on the already-computed component
reports: assembles `file_dict` in the source's key order, writes its pruned
form, and returns the unpruned dictionary. -/
def file_json (fileInfo deps classes funcs body controlflow mainInfo : Json) :
    FileJsonResult :=
  let file_dict := Json.obj
    [ (("file".data), fileInfo)
    , (("dependencies".data), deps)
    , (("classes".data), classes)
    , (("functions".data), funcs)
    , (("body".data), body)
    , (("controlflow".data), controlflow)
    , (("main_info".data), mainInfo) ]
  { written := prune_json file_dict, returned := file_dict }

/-- The number of entries of a top-level mapping. -/
def numFields : Json → Nat
  | .obj fs => fs.length
  | _ => 0

/-- C10: `prune_json` builds a fresh structure — the report `file_json` returns
(and directory mode stores in the aggregate) is the unpruned `file_dict`, with
all seven entries present even when falsy, while the written artifact is its
pruned image; on all-empty components the written mapping has no entries but
the returned one still has all seven. -/
theorem file_json_returns_unpruned
    (fileInfo deps classes funcs body controlflow mainInfo : Json) :
    (file_json fileInfo deps classes funcs body controlflow mainInfo).returned
      = Json.obj
        [ (("file".data), fileInfo)
        , (("dependencies".data), deps)
        , (("classes".data), classes)
        , (("functions".data), funcs)
        , (("body".data), body)
        , (("controlflow".data), controlflow)
        , (("main_info".data), mainInfo) ]
    ∧ (file_json fileInfo deps classes funcs body controlflow mainInfo).written
      = prune_json
          ((file_json fileInfo deps classes funcs body controlflow mainInfo).returned)
    ∧ numFields ((file_json (Json.obj []) (Json.arr []) (Json.obj []) (Json.obj [])
        (Json.obj []) (Json.obj []) (Json.obj [])).returned) = 7
    ∧ numFields ((file_json (Json.obj []) (Json.arr []) (Json.obj []) (Json.obj [])
        (Json.obj []) (Json.obj []) (Json.obj [])).written) = 0 :=
  ⟨rfl, rfl, rfl, rfl⟩

/-! ## Python AST model for the shapes the source reads -/

/-- Constants appearing as comparison operands (`.s` is only present on
constants; Python compares values of different types as unequal). -/
inductive PyConst where
  | str (s : Str)
  | int (n : Int)
  | bool (b : Bool)
  | none_
deriving DecidableEq

/-- Expression shapes the source dispatches on: names, attribute chains,
calls (only the callee is ever read), subscripts (only the subscripted value
is ever read), constants and comparisons (only the comparator list is read). -/
inductive PyExpr where
  | name (id : Str)
  | attrOf (value : PyExpr) (attrName : Str)
  | call (func : PyExpr)
  | subscript (value : PyExpr)
  | const (c : PyConst)
  | compare (left : PyExpr) (comparators : List PyExpr)

/-- Statement shapes the source dispatches on.  `pass_` stands for any
statement carrying no `.value` attribute (accessing `.value` on it raises). -/
inductive PyStmt where
  | expr (value : PyExpr)
  | assign (targets : List PyExpr) (value : PyExpr)
  | ifStmt (test : PyExpr) (body : List PyStmt)
  | funcDef (fname : Str)
  | classDef (cname : Str)
  | importStmt
  | importFromStmt
  | pass_

/-! ## `CodeInspection._get_func_name` (code_inspector.py lines 387-432) -/

mutual

/-- `_get_func_name`: a bare name renders as itself; an attribute chain is
rendered by `attrChain`; any other shape falls off the `if`/`elif` chain and
returns Python `None` (embedded as `none`). -/
def get_func_name : PyExpr → Option Str
  | .name id => some id
  | .attrOf value a => some (attrChain value a)
  | _ => none

/-- The `while isinstance(module, ast.Attribute)` accumulation loop of
`_get_func_name` together with its root dispatch: a name root renders
`root.attrs`; a call root renders `<rendered-callee>().attrs` (a `None`
callee rendering raises `TypeError`, caught to leave the initial `""`); a
subscript root renders `<rendered-or-empty>[].attrs`; any other root leaves
the initial `""`. -/
def attrChain : PyExpr → Str → Str
  | .attrOf v a2, acc => attrChain v (a2 ++ ('.' :: acc))
  | .name id, acc => id ++ ('.' :: acc)
  | .call f, acc =>
    (match get_func_name f with
     | some n => n ++ ("().".data) ++ acc
     | none => [])
  | .subscript v, acc =>
    (match get_func_name v with
     | some n => if n.isEmpty then ("[].".data) ++ acc else n ++ ("[].".data) ++ acc
     | none => ("[].".data) ++ acc)
  | _, _ => []

end

/-! ## `CodeInspection._ast_if_main` (code_inspector.py lines 251-288) -/

/-- Python `i.value` on a statement: present on expression statements and
assignments; accessing it on other statements raises `AttributeError`. -/
def stmtValue : PyStmt → Option PyExpr
  | .expr v => some v
  | .assign _ v => some v
  | _ => none

/-- `[node for node in self.tree.body if isinstance(node, ast.If)]`. -/
def ifNodes : List PyStmt → List (PyExpr × List PyStmt)
  | [] => []
  | .ifStmt t b :: rest => (t, b) :: ifNodes rest
  | _ :: rest => ifNodes rest

/-- Python `.s` on an expression node: the constant's value on a constant
node, an `AttributeError` (embedded as `none`) otherwise. -/
def constS : PyExpr → Option PyConst
  | .const c => some c
  | _ => none

/-- `node.test.comparators[0].s`: `none` embeds the exception paths (test not
a comparison, empty comparator list, comparator without `.s`). -/
def testMainCmp : PyExpr → Option PyConst
  | .compare _ (c :: _) => constS c
  | _ => none

/-- Python `c == "__main__"`: only an equal string constant compares true. -/
def pyEqMain : PyConst → Bool
  | .str s => s == "__main__".data
  | _ => false

/-- `i.value.func if isinstance(i.value, ast.Call)`. -/
def callFunc? : PyExpr → Option PyExpr
  | .call f => some f
  | _ => none

/-- One iteration of the `for node in if_main_definitions` loop, inside its
`try`: the flag contribution (set before any later exception), and the
entry-function string when the iteration reaches the `break` (a statement
without `.value` or a `None` first rendered call name raises, keeping the
flag but skipping the assignment and the `break`). -/
def mainNodeStep (base : Str) (test : PyExpr) (body : List PyStmt) :
    Bool × Option Str :=
  match testMainCmp test with
  | none => (false, none)
  | some c =>
    (pyEqMain c,
      if body.any (fun s => (stmtValue s).isNone) then none
      else
        match ((body.filterMap stmtValue).filterMap callFunc?).map get_func_name with
        | [] => none
        | none :: _ => none
        | some n :: _ => some (base ++ ('.' :: n)))

/-- The loop over all top-level `if` statements, threading the flag and the
entry-function name; the first iteration producing a name `break`s. -/
def mainLoop (base : Str) : List (PyExpr × List PyStmt) → Bool → Str → Bool × Str
  | [], flag, fn => (flag, fn)
  | (t, b) :: rest, flag, fn =>
    match mainNodeStep base t b with
    | (f, some found) => (flag || f, found)
    | (f, none) => mainLoop base rest (flag || f) fn

/-- The `main_info` dictionary built by `_ast_if_main`. -/
structure MainEntry where
  main_flag : Nat
  main_function : Str
  type? : Option Str
deriving DecidableEq

/-- `CodeInspection._ast_if_main`, embedded on the file's top-level statement
list and base name. -/
def ast_if_main (tree : List PyStmt) (base : Str) : MainEntry :=
  let r := mainLoop base (ifNodes tree) false []
  { main_flag := if r.1 then 1 else 0
  , main_function := r.2
  , type? :=
      if r.1 then
        some (if pyIn ("unittest".data) r.2 || pyIn ("test".data) base
              then "test".data else "script".data)
      else none }

/-- Whether some top-level conditional's first comparator is the string
constant "__main__" (the exact condition under which the source sets the
flag). -/
def hasMainCompare (tree : List PyStmt) : Bool :=
  (ifNodes tree).any (fun p =>
    match testMainCmp p.1 with
    | some c => pyEqMain c
    | none => false)

theorem mainNodeStep_fst (base : Str) (test : PyExpr) (body : List PyStmt) :
    (mainNodeStep base test body).1 =
      (match testMainCmp test with
       | some c => pyEqMain c
       | none => false) := by
  unfold mainNodeStep
  cases testMainCmp test <;> rfl

theorem mainLoop_flag_false (base : Str) (nodes : List (PyExpr × List PyStmt))
    (fn : Str) (h : ∀ p ∈ nodes, (mainNodeStep base p.1 p.2).1 = false) :
    (mainLoop base nodes false fn).1 = false := by
  induction nodes generalizing fn with
  | nil => rfl
  | cons p rest ih =>
    obtain ⟨t, b⟩ := p
    have h1 := h (t, b) (List.mem_cons_self _ _)
    cases hstep : mainNodeStep base t b with
    | mk f r =>
      rw [hstep] at h1
      simp only at h1
      cases r with
      | some found => simp [mainLoop, hstep, h1]
      | none =>
        simp only [mainLoop, hstep, h1, Bool.or_false]
        exact ih fn (fun q hq => h q (List.mem_cons_of_mem _ hq))

/-- C3 counterexample: a main block calling `test_run` — the substring "test"
appears in the resolved entry name `app.test_run` but not in the base name,
yet the recorded type is "script" (the source tests "unittest", not "test",
against the resolved name). -/
theorem ast_if_main_test_substring_counterexample :
    (ast_if_main
        [PyStmt.ifStmt (PyExpr.compare (PyExpr.name ("__name__".data))
            [PyExpr.const (PyConst.str ("__main__".data))])
          [PyStmt.expr (PyExpr.call (PyExpr.name ("test_run".data)))]]
        ("app".data)).main_flag = 1
    ∧ (ast_if_main
        [PyStmt.ifStmt (PyExpr.compare (PyExpr.name ("__name__".data))
            [PyExpr.const (PyConst.str ("__main__".data))])
          [PyStmt.expr (PyExpr.call (PyExpr.name ("test_run".data)))]]
        ("app".data)).main_function = "app.test_run".data
    ∧ pyIn ("test".data) ("app.test_run".data) = true
    ∧ (ast_if_main
        [PyStmt.ifStmt (PyExpr.compare (PyExpr.name ("__name__".data))
            [PyExpr.const (PyConst.str ("__main__".data))])
          [PyStmt.expr (PyExpr.call (PyExpr.name ("test_run".data)))]]
        ("app".data)).type? = some ("script".data) := by
  refine ⟨by decide, by decide, by decide, by decide⟩

/-- C3 (amended): when the main-entry idiom is detected, the recorded type is
"test" exactly when "unittest" occurs in the resolved main-function name or
"test" occurs in the file's base name, and "script" otherwise. -/
theorem ast_if_main_type_rule (tree : List PyStmt) (base : Str)
    (h : (ast_if_main tree base).main_flag = 1) :
    (ast_if_main tree base).type? =
      some (if pyIn ("unittest".data) (ast_if_main tree base).main_function
            || pyIn ("test".data) base
            then "test".data else "script".data) := by
  rcases hr : mainLoop base (ifNodes tree) false [] with ⟨flag, fn⟩
  simp only [ast_if_main, hr] at h ⊢
  cases flag with
  | false => simp at h
  | true => simp

/-- Witness for C3 at a concrete main-bearing file. -/
theorem ast_if_main_type_rule_witness :
    (ast_if_main
        [PyStmt.ifStmt (PyExpr.compare (PyExpr.name ("__name__".data))
            [PyExpr.const (PyConst.str ("__main__".data))])
          [PyStmt.expr (PyExpr.call (PyExpr.name ("main".data)))]]
        ("app".data)).type? =
      some (if pyIn ("unittest".data)
              (ast_if_main
                [PyStmt.ifStmt (PyExpr.compare (PyExpr.name ("__name__".data))
                    [PyExpr.const (PyConst.str ("__main__".data))])
                  [PyStmt.expr (PyExpr.call (PyExpr.name ("main".data)))]]
                ("app".data)).main_function
            || pyIn ("test".data) ("app".data)
            then "test".data else "script".data) :=
  ast_if_main_type_rule _ _ (by decide)

/-- C8 counterexample: a file whose only top-level conditional compares `x`
with `0` (never "__main__") but whose body contains the call `foo()`: the
flag stays 0, yet `main_function` is set to "app.foo" — not empty as the
claim requires. -/
theorem ast_if_main_unguarded_name_counterexample :
    hasMainCompare
        [PyStmt.ifStmt (PyExpr.compare (PyExpr.name ("x".data))
            [PyExpr.const (PyConst.int 0)])
          [PyStmt.expr (PyExpr.call (PyExpr.name ("foo".data)))]] = false
    ∧ (ast_if_main
        [PyStmt.ifStmt (PyExpr.compare (PyExpr.name ("x".data))
            [PyExpr.const (PyConst.int 0)])
          [PyStmt.expr (PyExpr.call (PyExpr.name ("foo".data)))]]
        ("app".data)).main_flag = 0
    ∧ (ast_if_main
        [PyStmt.ifStmt (PyExpr.compare (PyExpr.name ("x".data))
            [PyExpr.const (PyConst.int 0)])
          [PyStmt.expr (PyExpr.call (PyExpr.name ("foo".data)))]]
        ("app".data)).main_function = "app.foo".data
    ∧ "app.foo".data ≠ ([] : Str) := by
  refine ⟨by decide, by decide, by decide, by decide⟩

/-- C8 (amended): with no top-level conditional comparing against "__main__",
the detector records `main_flag = 0` and produces no `type` field, but
`main_function` may still be set (from the first top-level conditional whose
body contains a call, the name extraction being unguarded by the comparison). -/
theorem ast_if_main_flag_zero_without_main_compare (tree : List PyStmt)
    (base : Str) (h : hasMainCompare tree = false) :
    (ast_if_main tree base).main_flag = 0
    ∧ (ast_if_main tree base).type? = none := by
  have hall : ∀ p ∈ ifNodes tree, (mainNodeStep base p.1 p.2).1 = false := by
    intro p hp
    rw [mainNodeStep_fst]
    have := (List.any_eq_false).mp h p hp
    exact Bool.not_eq_true _ |>.mp this
  have hflag := mainLoop_flag_false base (ifNodes tree) [] hall
  rcases hr : mainLoop base (ifNodes tree) false [] with ⟨flag, fn⟩
  rw [hr] at hflag
  simp only at hflag
  simp [ast_if_main, hr, hflag]

/-- Witness for C8 at a concrete file with a non-main conditional. -/
theorem ast_if_main_flag_zero_witness :
    (ast_if_main
        [PyStmt.ifStmt (PyExpr.compare (PyExpr.name ("x".data))
            [PyExpr.const (PyConst.int 0)])
          [PyStmt.expr (PyExpr.call (PyExpr.name ("foo".data)))]]
        ("app".data)).main_flag = 0
    ∧ (ast_if_main
        [PyStmt.ifStmt (PyExpr.compare (PyExpr.name ("x".data))
            [PyExpr.const (PyConst.int 0)])
          [PyStmt.expr (PyExpr.call (PyExpr.name ("foo".data)))]]
        ("app".data)).type? = none :=
  ast_if_main_flag_zero_without_main_compare _ _ (by decide)

/-! ## `CodeInspection._dfs` and `CodeInspection._fill_call_name`
(code_inspector.py lines 434-455 and 457-582) -/

/-- The per-class information `_dfs` and `_fill_call_name` read: the ordered
declared base list (`"extend"`) and the method-table keys (`"methods"`). -/
structure PyClassInfo where
  extendList : List Str
  methods : List Str
deriving DecidableEq

/-- A record of the file's dependency table (`self.depInfo`); empty strings
embed the falsy `None`/empty values of the source. -/
structure DepRec where
  from_module : Str
  importName : Str
  aliasName : Str
deriving DecidableEq

/-- Python `k in d` for the embedded dicts. -/
def containsKey {α : Type} (k : Str) (l : List (Str × α)) : Bool :=
  (List.lookup k l).isSome

/-- `_dfs`: walks an ordered base list; a base present in the class table
either declares the target method (match, search ends) or its own bases are
searched first; a base absent from the class table is probed with `hasattr`
(the runtime-introspection boundary, passed in as `hf`) and, failing that,
the source evaluates `classes_info[ext]["extend"]` and raises `KeyError`
(embedded as `.error ()`); `fuel` bounds the recursion depth, standing for
the interpreter's recursion limit (the source has no cycle guard). -/
def dfs (hf : Str → Str → Bool) (base : Str) (cs : List (Str × PyClassInfo)) :
    Nat → List Str → Str → Except Unit (Option Str)
  | _, [], _ => .ok none
  | fuel, ext :: restExts, target =>
    match List.lookup ext cs with
    | some ci =>
      if ci.methods.contains target then
        .ok (some (base ++ ('.' :: ext) ++ ('.' :: target)))
      else
        match fuel with
        | 0 => .error ()
        | fuel' + 1 =>
          match dfs hf base cs fuel' ci.extendList target with
          | .error e => .error e
          | .ok (some r) => .ok (some r)
          | .ok none => dfs hf base cs (fuel' + 1) restExts target
    | none =>
      if hf ext target then .ok (some (ext ++ ('.' :: target)))
      else .error ()
termination_by fuel exts _ => (fuel, exts.length)

/-- The `for key, val in f_store_vars.items()` substitution loop of
`_fill_call_name`; a stored `None` value matched as the leading segment makes
`val + "." + rest` raise `TypeError` (embedded as `.error ()`). -/
def storeSubst (s module0 rest : Str) :
    List (Option Str × Option Str) → Except Unit (Str × Str)
  | [] => .ok (module0, s)
  | (key, val) :: kvs =>
    if key == some module0 then
      match val with
      | none => .error ()
      | some v => .ok (v, v ++ ('.' :: rest))
    else storeSubst s module0 rest kvs

/-- The first dependency loop of `_fill_call_name` (lines 496-517): exact
match on the imported symbol (no `break` when the record has no source
module, so later records may append again), then alias match. -/
def depLoop1 (module0 call0 rest2 : Str) : List DepRec → Bool × List Str
  | [] => (false, [])
  | d :: ds =>
    if d.importName == module0 then
      if !d.from_module.isEmpty then (true, [d.from_module ++ ('.' :: call0)])
      else
        let r := depLoop1 module0 call0 rest2 ds
        (true, call0 :: r.2)
    else if !d.aliasName.isEmpty && d.aliasName == module0 then
      if !d.from_module.isEmpty then
        (true, [d.from_module ++ ('.' :: d.importName) ++ rest2])
      else (true, [d.importName ++ rest2])
    else depLoop1 module0 call0 rest2 ds

/-- The wildcard-import dependency loop of `_fill_call_name` (lines 521-530). -/
def depLoop2 (call0 : Str) : List DepRec → Bool × List Str
  | [] => (false, [])
  | d :: ds =>
    if d.importName == call0 && !d.from_module.isEmpty then
      (true, [d.from_module ++ ('.' :: call0)])
    else depLoop2 call0 ds

/-- The sibling-nested-function loop of `_fill_call_name` (lines 542-554). -/
def siblingLoop (base class_name call0 : Str) :
    List (Str × List Str) → Bool × List Str
  | [] => (false, [])
  | (fname, nested) :: rest =>
    if nested.contains call0 then
      if !class_name.isEmpty then
        (true, [base ++ ('.' :: class_name) ++ ('.' :: fname) ++ ('.' :: call0)])
      else (true, [base ++ ('.' :: fname) ++ ('.' :: call0)])
    else siblingLoop base class_name call0 rest

/-- The body of the `for call_name in funct_def_info[funct]["calls"]` loop of
`_fill_call_name`: resolves one raw call name to the list of names appended to
`renamed_calls` for it.  A `None` call name raises on `call_name.split(".")`
(`.error ()`); the scope table `table` maps each scope name to its nested
function names; `cs` is the class table; `extendL` the enclosing class's base
list; `body` the body-mode flag. -/
def fillOne (hf : Str → Str → Bool) (base : Str) (deps : List DepRec)
    (cs : List (Str × PyClassInfo)) (table : List (Str × List Str))
    (class_name : Str) (extendL : List Str) (body : Bool)
    (store_vars : List (Option Str × Option Str)) (fuel : Nat) :
    Option Str → Except Unit (List Str)
  | none => .error ()
  | some s =>
    let parts := pySplit '.' s
    let module0 := parts.headD []
    let rest := joinDot parts.tail
    match storeSubst s module0 rest store_vars with
    | .error e => .error e
    | .ok (module1, call1) =>
      if containsKey call1 cs then
        .ok [base ++ ('.' :: call1) ++ (".__init__".data)]
      else if pyIn ("self".data) module1 then
        .ok [base ++ ('.' :: class_name) ++ ('.' :: rest)]
      else if pyIn ("super()".data) module1 && !extendL.isEmpty then
        match dfs hf base cs fuel extendL rest with
        | .error e => .error e
        | .ok (some r) => .ok [r]
        | .ok none => .ok [call1]
      else
        let rest2 := if !rest.isEmpty then '.' :: rest else []
        let r1 := depLoop1 module1 call1 rest2 deps
        if r1.1 then .ok r1.2
        else
          let r2 := depLoop2 call1 deps
          if r2.1 then .ok (r1.2 ++ r2.2)
          else if containsKey call1 table then
            .ok (r1.2 ++ r2.2 ++ [base ++ ('.' :: call1)])
          else
            let r3 := if !body then siblingLoop base class_name call1 table
                      else (false, [])
            if r3.1 then .ok (r1.2 ++ r2.2 ++ r3.2)
            else if !module1.isEmpty && !rest2.isEmpty && !(pyIn base call1) then
              let rest3 := (pySplit '.' rest2).tail.headD []
              match List.lookup module1 cs with
              | some ci =>
                if ci.methods.contains rest3 then
                  .ok (r1.2 ++ r2.2 ++ r3.2 ++ [base ++ ('.' :: call1)])
                else
                  match dfs hf base cs fuel ci.extendList rest3 with
                  | .error e => .error e
                  | .ok (some r) =>
                    .ok (r1.2 ++ r2.2 ++ r3.2 ++ [r, base ++ ('.' :: call1)])
                  | .ok none =>
                    if call1 ≠ "super".data then .ok (r1.2 ++ r2.2 ++ r3.2 ++ [call1])
                    else .ok (r1.2 ++ r2.2 ++ r3.2)
              | none => .ok (r1.2 ++ r2.2 ++ r3.2 ++ [call1])
            else
              if call1 ≠ "super".data then .ok (r1.2 ++ r2.2 ++ r3.2 ++ [call1])
              else .ok (r1.2 ++ r2.2 ++ r3.2)

/-- The whole-scope resolution: the loop over a scope's `calls` list, with the
accumulated `renamed_calls`; an exception in any iteration propagates. -/
def fillCalls (hf : Str → Str → Bool) (base : Str) (deps : List DepRec)
    (cs : List (Str × PyClassInfo)) (table : List (Str × List Str))
    (class_name : Str) (extendL : List Str) (body : Bool)
    (store_vars : List (Option Str × Option Str)) (fuel : Nat) :
    List (Option Str) → Except Unit (List Str)
  | [] => .ok []
  | c :: rest =>
    match fillOne hf base deps cs table class_name extendL body store_vars fuel c with
    | .error e => .error e
    | .ok r =>
      match fillCalls hf base deps cs table class_name extendL body store_vars fuel rest with
      | .error e => .error e
      | .ok rs => .ok (r ++ rs)

/-! ## `CodeInspection.inspect_body` (code_inspector.py lines 181-210) -/

/-- The top-level statement filter of `inspect_body` (classes, functions
and the two import statement forms are excluded). -/
def isBodyNode : PyStmt → Bool
  | .classDef _ => false
  | .funcDef _ => false
  | .importStmt => false
  | .importFromStmt => false
  | _ => true

/-- A top-level assignment whose right-hand side is a call: its targets and
the callee. -/
def assignCallInfo : PyStmt → Option (List PyExpr × PyExpr)
  | .assign targets (PyExpr.call f) => some (targets, f)
  | _ => none

/-- A top-level expression statement that is a call: its callee. -/
def exprCallFunc : PyStmt → Option PyExpr
  | .expr (PyExpr.call f) => some f
  | _ => none

/-- `body_calls` as `inspect_body` builds it: rendered callee names of
call-valued assignments, then of call expression statements — appended
without any `None` filtering (unlike `_f_definitions`, which filters). -/
def inspect_body_calls (tree : List PyStmt) : List (Option Str) :=
  ((tree.filter isBodyNode).filterMap assignCallInfo).map (fun p => get_func_name p.2)
  ++ ((tree.filter isBodyNode).filterMap exprCallFunc).map get_func_name

/-- `body_store_vars`: one (rendered target, rendered callee) pair per
assignment target. -/
def inspect_body_store (tree : List PyStmt) : List (Option Str × Option Str) :=
  ((tree.filter isBodyNode).filterMap assignCallInfo).flatMap
    (fun p => p.1.map (fun tgt => (get_func_name tgt, get_func_name p.2)))

/-- The tail of `inspect_body`: the module-body call list is resolved through
`_fill_call_name(body_info, classesInfo, body=1)`, whose scope table has the
single key "body" and whose store-variables dict is `body_store_vars`. -/
def inspect_body_resolve (hf : Str → Str → Bool) (base : Str)
    (deps : List DepRec) (cs : List (Str × PyClassInfo)) (fuel : Nat)
    (tree : List PyStmt) : Except Unit (List Str) :=
  fillCalls hf base deps cs [(("body".data), [])] [] [] true
    (inspect_body_store tree) fuel (inspect_body_calls tree)

/-- C9: a module-body call whose target is a bare subscript (e.g. the
statement `funcs[0]()`) renders to Python `None`; `inspect_body` appends it
to `body_calls` without the `None` filter `_f_definitions` applies, and
`_fill_call_name` then evaluates `None.split(".")`, raising `AttributeError`
and aborting the inspection of the file instead of degrading gracefully. -/
theorem inspect_body_unrenderable_call_raises :
    get_func_name (PyExpr.subscript (PyExpr.name ("funcs".data))) = none
    ∧ inspect_body_calls
        [PyStmt.expr (PyExpr.call (PyExpr.subscript (PyExpr.name ("funcs".data))))]
      = [none]
    ∧ inspect_body_resolve (fun _ _ => false) ("app".data) [] [] 1
        [PyStmt.expr (PyExpr.call (PyExpr.subscript (PyExpr.name ("funcs".data))))]
      = Except.error () :=
  ⟨rfl, rfl, rfl⟩

theorem dfs_head_found (hf : Str → Str → Bool) (base : Str)
    (cs : List (Str × PyClassInfo)) (fuel : Nat) (ext : Str)
    (restExts : List Str) (target : Str) (pc : PyClassInfo)
    (hpc : List.lookup ext cs = some pc)
    (hm : pc.methods.contains target = true) :
    dfs hf base cs fuel (ext :: restExts) target
      = .ok (some (base ++ ('.' :: ext) ++ ('.' :: target))) := by
  rw [dfs, hpc]
  dsimp only
  rw [if_pos hm]

/-- C7: a call rendered "super().run" inside a method of class `Child` whose
declared base list is `["Parent"]`, where the class table maps "Parent" to a
class declaring method "run" (and no class is named "super().run"), resolves
to `<file-base>.Parent.run`: the ancestor search succeeds on the first base. -/
theorem super_call_resolves_to_parent (hf : Str → Str → Bool) (base : Str)
    (deps : List DepRec) (cs : List (Str × PyClassInfo))
    (table : List (Str × List Str)) (pc : PyClassInfo)
    (store_vars : List (Option Str × Option Str)) (fuel : Nat)
    (hpc : List.lookup ("Parent".data) cs = some pc)
    (hrun : pc.methods.contains ("run".data) = true)
    (hnc : List.lookup ("super().run".data) cs = none)
    (hsv : storeSubst ("super().run".data) ("super()".data) ("run".data) store_vars
      = .ok (("super()".data), ("super().run".data))) :
    get_func_name (PyExpr.attrOf (PyExpr.call (PyExpr.name ("super".data))) ("run".data))
      = some ("super().run".data)
    ∧ fillOne hf base deps cs table ("Child".data) [("Parent".data)] false
        store_vars fuel (some ("super().run".data))
      = .ok [base ++ (".Parent.run".data)] := by
  refine ⟨rfl, ?_⟩
  have hsplit : pySplit '.' ("super().run".data) = [("super()".data), ("run".data)] := by
    decide
  have hjoin : joinDot [("run".data)] = "run".data := by decide
  simp only [fillOne, hsplit, List.headD_cons, List.tail_cons, hjoin, hsv]
  have hck : containsKey ("super().run".data) cs = false := by
    simp [containsKey, hnc]
  simp only [hck, Bool.false_eq_true, if_false]
  have hself : pyIn ("self".data) ("super()".data) = false := by decide
  have hsuper : pyIn ("super()".data) ("super()".data) = true := by decide
  simp only [hself, Bool.false_eq_true, if_false, hsuper, List.isEmpty_cons,
    Bool.not_false, Bool.and_self, if_true]
  rw [dfs_head_found hf base cs fuel ("Parent".data) [] ("run".data) pc hpc hrun]
  have : base ++ ('.' :: ("Parent".data)) ++ ('.' :: ("run".data))
      = base ++ (".Parent.run".data) := by
    rw [List.append_assoc]
    rfl
  rw [this]

/-- Witness for C7 at a concrete class table. -/
theorem super_call_resolves_to_parent_witness :
    fillOne (fun _ _ => false) ("mod".data) []
        [ (("Parent".data), PyClassInfo.mk [] [("run".data)])
        , (("Child".data), PyClassInfo.mk [("Parent".data)] [("go".data)]) ]
        [] ("Child".data) [("Parent".data)] false [] 1
        (some ("super().run".data))
      = .ok [("mod".data) ++ (".Parent.run".data)] :=
  (super_call_resolves_to_parent (fun _ _ => false) ("mod".data) []
    [ (("Parent".data), PyClassInfo.mk [] [("run".data)])
    , (("Child".data), PyClassInfo.mk [("Parent".data)] [("go".data)]) ]
    [] (PyClassInfo.mk [] [("run".data)]) [] 1
    (by decide) (by decide) (by decide) rfl).2

/-! ## `CodeInspection.inspect_file` (code_inspector.py lines 58-78) -/

/-- `os.path.basename`, modelled for separator-normalized POSIX paths: the
piece after the last "/". -/
def basename (p : Str) : Str := (pySplit '/' p).getLastD []

/-- Model of the `os.path.abspath` boundary: a path already rooted at the
separator is returned as is, any other is joined onto the working directory
(normalization of "." and ".." segments is omitted; the property used is
only that the result is rooted). -/
def abspath (cwd p : Str) : Str :=
  if p.head? = some '/' then p else cwd ++ ('/' :: p)

/-- The `file_info` triple `inspect_file` builds (the docstring triple is
produced by the external docstring boundary and is not modelled). -/
structure PyFileInfo where
  path : Str
  fileNameBase : Str
  extensionPart : Str
deriving DecidableEq

/-- `CodeInspection.inspect_file`: `file_name = os.path.basename(path).split(".")`,
`fileNameBase = file_name[0]`, `extension = file_name[1]` — the second
dot-separated piece; indexing a name without any "." raises `IndexError`
(embedded as `none`). -/
def inspect_file (cwd p : Str) : Option PyFileInfo :=
  let file_name := pySplit '.' (basename p)
  match file_name.get? 1 with
  | none => none
  | some ext => some ⟨abspath cwd p, file_name.headD [], ext⟩

/-- The claim's reading of "extension": the substring of the file name after
the first ".". -/
def afterFirstDot (s : Str) : Str := (s.dropWhile (· ≠ '.')).drop 1

/-- C2 counterexample: for the file name "a.test.py" the source records
extension "test" (the piece between the first and second dot), not the
substring "test.py" after the first dot. -/
theorem inspect_file_extension_counterexample :
    (inspect_file ("/w".data) ("a.test.py".data)).map PyFileInfo.extensionPart
      = some ("test".data)
    ∧ afterFirstDot (basename ("a.test.py".data)) = "test.py".data
    ∧ ("test".data : Str) ≠ "test.py".data := by
  refine ⟨by decide, by decide, by decide⟩

/-- C2 (amended): for every inspected file whose base name contains at least
one ".", the recorded extension is the portion of the name after the first
"." and before the following "." (the second dot-separated piece), and
`file.path` is an absolute path (rooted, given a rooted working directory); a
name without any "." makes the inspector raise an index error. -/
theorem inspect_file_spec (cwd p : Str) (hcwd : cwd.head? = some '/')
    (hdot : 2 ≤ (pySplit '.' (basename p)).length) :
    ∃ fi, inspect_file cwd p = some fi
      ∧ fi.path.head? = some '/'
      ∧ fi.extensionPart = (afterFirstDot (basename p)).takeWhile (· ≠ '.') := by
  have hget := pySplit_get?_one '.' (basename p) hdot
  refine ⟨⟨abspath cwd p, (pySplit '.' (basename p)).headD [],
    ((basename p).dropWhile (· ≠ '.')).drop 1 |>.takeWhile (· ≠ '.')⟩, ?_, ?_, rfl⟩
  · rw [inspect_file]
    rw [hget]
  · rw [abspath]
    by_cases hp : p.head? = some '/'
    · simp [hp]
    · simp only [hp, if_false]
      cases cwd with
      | nil => simp at hcwd
      | cons c rest => simpa using hcwd

/-- Witness for C2 at a concrete path. -/
theorem inspect_file_spec_witness :
    ∃ fi, inspect_file ("/w".data) ("a.test.py".data) = some fi
      ∧ fi.path.head? = some '/'
      ∧ fi.extensionPart
        = (afterFirstDot (basename ("a.test.py".data))).takeWhile (· ≠ '.') :=
  inspect_file_spec ("/w".data) ("a.test.py".data) (by decide) (by decide)

/-! ## `main` input validation (code_inspector.py lines 716-719) -/

/-- The outcome of the validation branch: the printed diagnostic and the
process exit status. -/
structure MainExit where
  diagnostic : Str
  status : Nat
deriving DecidableEq

/-- Model of the interpreter's `sys.exit` boundary: called with no argument
it reports the success status 0 (a `SystemExit` with value `None`). -/
def sysExitStatus : Option Nat → Nat
  | none => 0
  | some c => c

/-- The validation at the top of `main`: when the input path is neither an
existing file nor an existing directory, print the diagnostic and terminate
via the argumentless `sys.exit()`; otherwise fall through (`none`). -/
def main_path_check (isFile isDir : Bool) : Option MainExit :=
  if !isFile && !isDir then
    some ⟨"The file or directory specified does not exist".data, sysExitStatus none⟩
  else none

/-- C4 counterexample: the termination branch exits with `sys.exit()` — the
success status 0 — not a non-success status as claimed. -/
theorem main_path_check_status_counterexample :
    (main_path_check false false).map MainExit.status = some 0
    ∧ sysExitStatus none = 0 := ⟨rfl, rfl⟩

/-- C4 (amended): the termination branch is taken exactly when the input path
is neither an existing file nor an existing directory; it prints the
diagnostic and terminates immediately with the success exit status 0 (the
argumentless exit call), producing no further output. -/
theorem main_path_check_spec (isFile isDir : Bool) :
    (main_path_check isFile isDir = none ↔ (isFile = true ∨ isDir = true))
    ∧ (∀ e, main_path_check isFile isDir = some e →
        e.status = 0
        ∧ e.diagnostic = "The file or directory specified does not exist".data) := by
  constructor
  · cases isFile <;> cases isDir <;> simp [main_path_check]
  · intro e he
    cases isFile <;> cases isDir <;> simp [main_path_check] at he <;>
      simp [← he, sysExitStatus]

/-- Witness for C4: a missing path takes the branch with status 0 and the
diagnostic; an existing file does not take it. -/
theorem main_path_check_spec_witness :
    ((⟨"The file or directory specified does not exist".data, 0⟩ : MainExit).status = 0
      ∧ (⟨"The file or directory specified does not exist".data, 0⟩ : MainExit).diagnostic
        = "The file or directory specified does not exist".data)
    ∧ (main_path_check true false = none ↔ (true = true ∨ false = true)) :=
  ⟨(main_path_check_spec false false).2
      ⟨"The file or directory specified does not exist".data, 0⟩ rfl,
    (main_path_check_spec true false).1⟩
